import Mathlib

/-!
Shallow embedding of `src/sync_queue.h` (kitchen_sync's work-distribution
core): the `TableJob` and `SyncQueue` data model and the dispatcher
operations `enqueue_tables_to_process`, `find_table_job`,
`completed_table`, `have_work_to_share`, `abort`, together with the
private helpers `finished`, `start_sharing_work`, `start_sharing_work_in`
and `borrow_work`.

Every dispatcher operation in the source runs under the global lock, so
each is modelled as an atomic transformation of a `SyncQueue` state;
thread interleavings are sequences of such atomic steps.  `borrow_work`
is a blocking loop: one iteration of its while-loop — up to the point
where it returns or reaches `cond.wait(lock)` — is modelled by
`borrow_work_step`, with reaching the wait modelled as
`BorrowResult.blocked`.

Shared-pointer identity of jobs is modelled by natural-number job ids
allocated in order; the heap of job objects is a total function from ids
to `TableJob` values.
-/

namespace KitchenSync

/-- Modelled from the spec: `ColumnValues` (from `schema.h`, which is not
among this repository's source files) is a composite primary-key value,
a tuple of column values; the values themselves are opaque here. -/
abbrev ColumnValues := List Nat

/-- Translation of `typedef tuple<ColumnValues, ColumnValues> KeyRange`:
the pair (previous key, exclusive, and last key, inclusive). -/
abbrev KeyRange := ColumnValues × ColumnValues

/-- Translation of `struct KeyRangeToCheck` from `sync_queue.h`. -/
structure KeyRangeToCheck where
  key_range : KeyRange
  estimated_rows_in_range : Nat
  rows_to_hash : Nat
  priority : Nat
deriving DecidableEq

/-- Translation of `const size_t UNKNOWN_ROW_COUNT = numeric_limits<size_t>::max()`
on a 64-bit size_t. -/
def UNKNOWN_ROW_COUNT : Nat := 2 ^ 64 - 1

/-- Translation of the comparator `struct lower_priority`:
`l.priority < r.priority`. -/
def lower_priority (l r : KeyRangeToCheck) : Bool :=
  l.priority < r.priority

/-- Modelled from the spec: the opaque table descriptor of `schema.h` and
`subdivision.h` (neither file is among this repository's sources): an
identity, the primary-key columns, and whether the primary-key space
supports subdivision (the result of `primary_key_subdividable`). -/
structure Table where
  name : String
  primary_key_columns : List String
  key_space_subdividable : Bool
deriving DecidableEq

/-- Translation of `struct TableJob` from `sync_queue.h`.  The C++
`std::priority_queue` field `ranges_to_check` is modelled by the list of
its elements; `ranges_to_check_top` below gives the element its `top()`
yields.  The per-job `mutex` and `condition_variable` have no data
content and are not part of the state. -/
structure TableJob where
  table : Table
  table_id : String
  subdividable : Bool
  ranges_to_retrieve : List KeyRange
  ranges_to_check : List KeyRangeToCheck
  notify_when_work_could_be_shared : Bool
  time_started : Nat
  time_finished : Nat
  hash_commands : Nat
  hash_commands_completed : Nat
  rows_commands : Nat
deriving DecidableEq

/-- Translation of the `TableJob(const Table &table)` constructor:
id cached from the table, `subdividable` computed at creation, queues
empty, flag false, timestamps and counters zero. -/
def TableJob.make (table : Table) : TableJob :=
  { table := table
    table_id := table.name
    subdividable := table.key_space_subdividable
    ranges_to_retrieve := []
    ranges_to_check := []
    notify_when_work_could_be_shared := false
    time_started := 0
    time_finished := 0
    hash_commands := 0
    hash_commands_completed := 0
    rows_commands := 0 }

/-- Translation of `TableJob::have_work_to_share`:
`return (!ranges_to_check.empty())`. -/
def TableJob.have_work_to_share (j : TableJob) : Bool :=
  !j.ranges_to_check.isEmpty

/-- Element returned by `top()` of the `std::priority_queue` ordered by
`lower_priority`: a maximal element of the queue's contents under the
comparator (ties resolved arbitrarily by the heap; here, to the earlier
element). -/
def ranges_to_check_top : List KeyRangeToCheck → Option KeyRangeToCheck
  | [] => none
  | r :: rest =>
    match ranges_to_check_top rest with
    | none => some r
    | some m => if lower_priority r m then some m else some r

/-- Translation of `struct SyncQueue`'s state.  `tables_to_process` is the
pending FIFO (front at the head), `tables_being_processed` and
`tables_with_work_to_share` are the two `std::set`s of jobs, all three
holding job ids; `jobs` is the heap of job objects and `next_id` the
allocator of fresh ids (shared-pointer identities).  The field `aborted`
is modelled from the spec: it is the cancellation flag of the underlying
`AbortableBarrier` (`abortable_barrier.h` is not among this repository's
source files).  The fields `enqueued` and `completed` are history
variables recording which ids have ever been enqueued and which have been
passed to `completed_table`; they exist only to state invariants and are
read by no operation. -/
structure SyncQueue where
  aborted : Bool
  workers : Nat
  sharing_work : Bool
  tables_to_process : List Nat
  tables_being_processed : List Nat
  tables_with_work_to_share : List Nat
  jobs : Nat → TableJob
  next_id : Nat
  snapshot : String
  enqueued : List Nat
  completed : List Nat

/-- Translation of the `SyncQueue(size_t workers)` constructor:
`AbortableBarrier(workers)` (not aborted), `sharing_work(false)`, all
collections empty. -/
def SyncQueue.make (workers : Nat) : SyncQueue :=
  { aborted := false
    workers := workers
    sharing_work := false
    tables_to_process := []
    tables_being_processed := []
    tables_with_work_to_share := []
    jobs := fun _ => TableJob.make { name := "", primary_key_columns := [], key_space_subdividable := false }
    next_id := 0
    snapshot := ""
    enqueued := []
    completed := [] }

/-- Update of the job object a given id refers to (a write through the
shared pointer). -/
def setJob (s : SyncQueue) (id : Nat) (j : TableJob) : SyncQueue :=
  { s with jobs := fun k => if k = id then j else s.jobs k }

/-- Insertion into a `std::set` of job pointers, modelled on id lists:
no effect when the id is present, otherwise the id is added (appended;
the spec relies on no particular iteration order of the set). -/
def setInsert (id : Nat) (l : List Nat) : List Nat :=
  if id ∈ l then l else l ++ [id]

/-- Removal from a `std::set` of job pointers, modelled on id lists. -/
def setErase (id : Nat) (l : List Nat) : List Nat :=
  l.filter (fun x => x ≠ id)

/-- Translation of the loop body of `SyncQueue::enqueue_tables_to_process`:
wrap one table descriptor in a fresh `TableJob` and append it to the
pending queue (plus the `enqueued` history variable). -/
def enqueue_one (s : SyncQueue) (t : Table) : SyncQueue :=
  { s with
    tables_to_process := s.tables_to_process ++ [s.next_id]
    jobs := fun k => if k = s.next_id then TableJob.make t else s.jobs k
    enqueued := s.enqueued ++ [s.next_id]
    next_id := s.next_id + 1 }

/-- Translation of `SyncQueue::enqueue_tables_to_process`. -/
def enqueue_tables_to_process (s : SyncQueue) (tables : List Table) : SyncQueue :=
  tables.foldl enqueue_one s

/-- Translation of `SyncQueue::finished`:
`tables_to_process.empty() && tables_being_processed.empty()`. -/
def finished (s : SyncQueue) : Bool :=
  s.tables_to_process.isEmpty && s.tables_being_processed.isEmpty

/-- Translation of `SyncQueue::start_sharing_work_in`: under the job's
lock, set its `notify_when_work_could_be_shared` flag, and if it already
has work to share, insert it into `tables_with_work_to_share`. -/
def start_sharing_work_in (s : SyncQueue) (id : Nat) : SyncQueue :=
  let j := s.jobs id
  let s1 := setJob s id { j with notify_when_work_could_be_shared := true }
  if j.have_work_to_share then
    { s1 with tables_with_work_to_share := setInsert id s1.tables_with_work_to_share }
  else
    s1

/-- Translation of `SyncQueue::start_sharing_work`: set `sharing_work`,
then apply `start_sharing_work_in` to every pending job and every claimed
job. -/
def start_sharing_work (s : SyncQueue) : SyncQueue :=
  let s1 := { s with sharing_work := true }
  let s2 := s1.tables_to_process.foldl start_sharing_work_in s1
  s2.tables_being_processed.foldl start_sharing_work_in s2

/-- Outcome of one iteration of `borrow_work`'s while-loop: return
`nullptr` (`noWork`), return a job to steal from (`tableJob`), or reach
`cond.wait(lock)` (`blocked`). -/
inductive BorrowResult where
  | noWork
  | tableJob (id : Nat)
  | blocked
deriving DecidableEq

/-- Translation of the scan
`for (auto it = tables_with_work_to_share.begin(); it != tables_with_work_to_share.end(); it = tables_with_work_to_share.erase(it))`:
candidates are visited in order; a candidate whose re-check under its own
lock finds no work is erased by the loop's `it = erase(it)` step; a
candidate found holding work is returned at once — the `return` leaves
the loop before the erase step runs, so the returned candidate stays in
the set, as does every unvisited candidate.  The result pairs the found
id (if any) with what remains of the set. -/
def scan_shareable (s : SyncQueue) : List Nat → Option Nat × List Nat
  | [] => (none, [])
  | id :: rest =>
    if (s.jobs id).have_work_to_share then (some id, id :: rest)
    else scan_shareable s rest

/-- Translation of one iteration of `SyncQueue::borrow_work`'s while-loop:
if `finished()`, return `nullptr`; otherwise scan the shareable set; if
the scan finds no candidate holding work, the thread reaches
`cond.wait(lock)` (`blocked`).  Note the loop body contains no check of
the `aborted` flag: that check sits only at the entry of
`find_table_job`. -/
def borrow_work_step (s : SyncQueue) : BorrowResult × SyncQueue :=
  if finished s then
    (BorrowResult.noWork, s)
  else
    match scan_shareable s s.tables_with_work_to_share with
    | (some id, rest) => (BorrowResult.tableJob id, { s with tables_with_work_to_share := rest })
    | (none, rest) => (BorrowResult.blocked, { s with tables_with_work_to_share := rest })

/-- Outcome of `SyncQueue::find_table_job`: `throw aborted_error()`
(`cancelled`), a job (`tableJob`), `nullptr` (`noWork`), or reaching
`cond.wait` inside `borrow_work` (`blocked`). -/
inductive FindResult where
  | cancelled
  | tableJob (id : Nat)
  | noWork
  | blocked
deriving DecidableEq

/-- Translation of `SyncQueue::find_table_job` (with `borrow_work`
modelled by its first loop iteration, `borrow_work_step`): throw if
aborted; if the pending queue is empty, enter sharing mode when not yet
entered and borrow; otherwise pop the front pending job, insert it into
`tables_being_processed` and return it. -/
def find_table_job (s : SyncQueue) : FindResult × SyncQueue :=
  if s.aborted then
    (FindResult.cancelled, s)
  else
    match s.tables_to_process with
    | [] =>
      let s1 := if s.sharing_work then s else start_sharing_work s
      match borrow_work_step s1 with
      | (BorrowResult.noWork, s2) => (FindResult.noWork, s2)
      | (BorrowResult.tableJob id, s2) => (FindResult.tableJob id, s2)
      | (BorrowResult.blocked, s2) => (FindResult.blocked, s2)
    | id :: rest =>
      (FindResult.tableJob id,
        { s with
          tables_to_process := rest
          tables_being_processed := setInsert id s.tables_being_processed })

/-- Translation of `SyncQueue::completed_table`: erase the job from the
shareable and claimed sets (plus the `completed` history variable).  The
`cond.notify_all()` it performs when `finished()` carries no data and is
not part of the state. -/
def completed_table (s : SyncQueue) (id : Nat) : SyncQueue :=
  { s with
    tables_with_work_to_share := setErase id s.tables_with_work_to_share
    tables_being_processed := setErase id s.tables_being_processed
    completed := id :: s.completed }

/-- Translation of `SyncQueue::have_work_to_share` (the offer operation):
insert the job into the shareable set; the `cond.notify_all()` carries no
data. -/
def SyncQueue.have_work_to_share (s : SyncQueue) (id : Nat) : SyncQueue :=
  { s with tables_with_work_to_share := setInsert id s.tables_with_work_to_share }

/-- Translation of `SyncQueue::abort`.  `AbortableBarrier::abort` is
modelled from the spec (`abortable_barrier.h` is not among this
repository's source files): idempotent cancellation that sets the
`aborted` flag, notifies the global wake channel, and reports whether
this call was the one that aborted.  The per-job
`borrowed_task_completed.notify_all()` calls change no modelled state. -/
def SyncQueue.abort (s : SyncQueue) : Bool × SyncQueue :=
  (!s.aborted, { s with aborted := true })

/-- Range-push by a worker or producer on a job's own ready-to-check
queue (one `ranges_to_check.push(...)` under the job's lock). -/
def addRange (r : KeyRangeToCheck) (j : TableJob) : TableJob :=
  { j with ranges_to_check := j.ranges_to_check ++ [r] }

theorem mem_setInsert_self (id : Nat) (l : List Nat) : id ∈ setInsert id l := by
  unfold setInsert
  split
  · assumption
  · simp

theorem mem_setInsert_of_mem {x : Nat} {l : List Nat} (id : Nat) (h : x ∈ l) :
    x ∈ setInsert id l := by
  unfold setInsert
  split
  · exact h
  · exact List.mem_append_left _ h

theorem mem_of_mem_setInsert {x id : Nat} {l : List Nat} (h : x ∈ setInsert id l) :
    x = id ∨ x ∈ l := by
  unfold setInsert at h
  split at h
  · exact Or.inr h
  · rcases List.mem_append.1 h with h | h
    · exact Or.inr h
    · simp only [List.mem_singleton] at h
      exact Or.inl h

theorem mem_setErase {x id : Nat} {l : List Nat} :
    x ∈ setErase id l ↔ x ∈ l ∧ x ≠ id := by
  simp [setErase]

theorem have_work_iff {j : TableJob} :
    j.have_work_to_share = true ↔ j.ranges_to_check ≠ [] := by
  simp [TableJob.have_work_to_share]

theorem sswi_tables_to_process (s : SyncQueue) (id : Nat) :
    (start_sharing_work_in s id).tables_to_process = s.tables_to_process := by
  simp only [start_sharing_work_in, setJob]
  split <;> rfl

theorem sswi_tables_being_processed (s : SyncQueue) (id : Nat) :
    (start_sharing_work_in s id).tables_being_processed = s.tables_being_processed := by
  simp only [start_sharing_work_in, setJob]
  split <;> rfl

theorem sswi_enqueued (s : SyncQueue) (id : Nat) :
    (start_sharing_work_in s id).enqueued = s.enqueued := by
  simp only [start_sharing_work_in, setJob]
  split <;> rfl

theorem sswi_completed (s : SyncQueue) (id : Nat) :
    (start_sharing_work_in s id).completed = s.completed := by
  simp only [start_sharing_work_in, setJob]
  split <;> rfl

theorem sswi_next_id (s : SyncQueue) (id : Nat) :
    (start_sharing_work_in s id).next_id = s.next_id := by
  simp only [start_sharing_work_in, setJob]
  split <;> rfl

theorem sswi_share_mem {x : Nat} {s : SyncQueue} {id : Nat}
    (h : x ∈ (start_sharing_work_in s id).tables_with_work_to_share) :
    x ∈ s.tables_with_work_to_share ∨ x = id := by
  simp only [start_sharing_work_in, setJob] at h
  split at h
  · rcases mem_of_mem_setInsert h with h | h
    · exact Or.inr h
    · exact Or.inl h
  · exact Or.inl h

theorem sswi_share_mono {x : Nat} {s : SyncQueue} (id : Nat)
    (h : x ∈ s.tables_with_work_to_share) :
    x ∈ (start_sharing_work_in s id).tables_with_work_to_share := by
  simp only [start_sharing_work_in, setJob]
  split
  · exact mem_setInsert_of_mem _ h
  · exact h

theorem sswi_ranges (s : SyncQueue) (id k : Nat) :
    ((start_sharing_work_in s id).jobs k).ranges_to_check = (s.jobs k).ranges_to_check := by
  simp only [start_sharing_work_in, setJob]
  split <;> simp only <;> split
  all_goals first
  | rfl
  | (rename_i hk; subst hk; rfl)

theorem sswi_notify_self (s : SyncQueue) (id : Nat) :
    ((start_sharing_work_in s id).jobs id).notify_when_work_could_be_shared = true := by
  simp only [start_sharing_work_in, setJob]
  split <;> simp

theorem sswi_notify_mono {s : SyncQueue} {k : Nat} (id : Nat)
    (h : (s.jobs k).notify_when_work_could_be_shared = true) :
    ((start_sharing_work_in s id).jobs k).notify_when_work_could_be_shared = true := by
  simp only [start_sharing_work_in, setJob]
  split <;> simp only <;> split <;> simp [h]

theorem sswi_share_self {s : SyncQueue} {id : Nat}
    (h : (s.jobs id).ranges_to_check ≠ []) :
    id ∈ (start_sharing_work_in s id).tables_with_work_to_share := by
  simp only [start_sharing_work_in, setJob]
  rw [if_pos (have_work_iff.2 h)]
  exact mem_setInsert_self _ _

theorem fold_sswi_tables_to_process (L : List Nat) (s : SyncQueue) :
    (L.foldl start_sharing_work_in s).tables_to_process = s.tables_to_process := by
  induction L generalizing s with
  | nil => rfl
  | cons a L ih => rw [List.foldl_cons, ih, sswi_tables_to_process]

theorem fold_sswi_tables_being_processed (L : List Nat) (s : SyncQueue) :
    (L.foldl start_sharing_work_in s).tables_being_processed = s.tables_being_processed := by
  induction L generalizing s with
  | nil => rfl
  | cons a L ih => rw [List.foldl_cons, ih, sswi_tables_being_processed]

theorem fold_sswi_enqueued (L : List Nat) (s : SyncQueue) :
    (L.foldl start_sharing_work_in s).enqueued = s.enqueued := by
  induction L generalizing s with
  | nil => rfl
  | cons a L ih => rw [List.foldl_cons, ih, sswi_enqueued]

theorem fold_sswi_completed (L : List Nat) (s : SyncQueue) :
    (L.foldl start_sharing_work_in s).completed = s.completed := by
  induction L generalizing s with
  | nil => rfl
  | cons a L ih => rw [List.foldl_cons, ih, sswi_completed]

theorem fold_sswi_next_id (L : List Nat) (s : SyncQueue) :
    (L.foldl start_sharing_work_in s).next_id = s.next_id := by
  induction L generalizing s with
  | nil => rfl
  | cons a L ih => rw [List.foldl_cons, ih, sswi_next_id]

theorem fold_sswi_share_mem {x : Nat} {L : List Nat} {s : SyncQueue}
    (h : x ∈ (L.foldl start_sharing_work_in s).tables_with_work_to_share) :
    x ∈ s.tables_with_work_to_share ∨ x ∈ L := by
  induction L generalizing s with
  | nil => exact Or.inl h
  | cons a L ih =>
    rw [List.foldl_cons] at h
    rcases ih h with h | h
    · rcases sswi_share_mem h with h | h
      · exact Or.inl h
      · exact Or.inr (h ▸ List.mem_cons_self a L)
    · exact Or.inr (List.mem_cons_of_mem a h)

theorem fold_sswi_share_mono {x : Nat} (L : List Nat) {s : SyncQueue}
    (h : x ∈ s.tables_with_work_to_share) :
    x ∈ (L.foldl start_sharing_work_in s).tables_with_work_to_share := by
  induction L generalizing s with
  | nil => exact h
  | cons a L ih => exact ih (sswi_share_mono a h)

theorem fold_sswi_ranges (L : List Nat) (s : SyncQueue) (k : Nat) :
    ((L.foldl start_sharing_work_in s).jobs k).ranges_to_check = (s.jobs k).ranges_to_check := by
  induction L generalizing s with
  | nil => rfl
  | cons a L ih => rw [List.foldl_cons, ih, sswi_ranges]

theorem fold_sswi_notify_mono {k : Nat} (L : List Nat) {s : SyncQueue}
    (h : (s.jobs k).notify_when_work_could_be_shared = true) :
    ((L.foldl start_sharing_work_in s).jobs k).notify_when_work_could_be_shared = true := by
  induction L generalizing s with
  | nil => exact h
  | cons a L ih => exact ih (sswi_notify_mono a h)

theorem fold_sswi_notify_in {id : Nat} {L : List Nat} (s : SyncQueue) (h : id ∈ L) :
    ((L.foldl start_sharing_work_in s).jobs id).notify_when_work_could_be_shared = true := by
  induction L generalizing s with
  | nil => cases h
  | cons a L ih =>
    rw [List.foldl_cons]
    rcases List.mem_cons.1 h with h | h
    · exact fold_sswi_notify_mono L (h ▸ sswi_notify_self s a)
    · exact ih _ h

theorem fold_sswi_share_in {id : Nat} {L : List Nat} {s : SyncQueue} (h : id ∈ L)
    (hw : (s.jobs id).ranges_to_check ≠ []) :
    id ∈ (L.foldl start_sharing_work_in s).tables_with_work_to_share := by
  induction L generalizing s with
  | nil => cases h
  | cons a L ih =>
    rw [List.foldl_cons]
    rcases List.mem_cons.1 h with h | h
    · subst h
      exact fold_sswi_share_mono L (sswi_share_self hw)
    · exact ih h (by rw [sswi_ranges]; exact hw)

theorem ssw_tables_to_process (s : SyncQueue) :
    (start_sharing_work s).tables_to_process = s.tables_to_process := by
  simp only [start_sharing_work]
  rw [fold_sswi_tables_to_process, fold_sswi_tables_to_process]

theorem ssw_tables_being_processed (s : SyncQueue) :
    (start_sharing_work s).tables_being_processed = s.tables_being_processed := by
  simp only [start_sharing_work]
  rw [fold_sswi_tables_being_processed, fold_sswi_tables_being_processed]

theorem ssw_enqueued (s : SyncQueue) :
    (start_sharing_work s).enqueued = s.enqueued := by
  simp only [start_sharing_work]
  rw [fold_sswi_enqueued, fold_sswi_enqueued]

theorem ssw_completed (s : SyncQueue) :
    (start_sharing_work s).completed = s.completed := by
  simp only [start_sharing_work]
  rw [fold_sswi_completed, fold_sswi_completed]

theorem ssw_next_id (s : SyncQueue) :
    (start_sharing_work s).next_id = s.next_id := by
  simp only [start_sharing_work]
  rw [fold_sswi_next_id, fold_sswi_next_id]

theorem ssw_share_mem {x : Nat} {s : SyncQueue}
    (h : x ∈ (start_sharing_work s).tables_with_work_to_share) :
    x ∈ s.tables_with_work_to_share ∨ x ∈ s.tables_to_process ∨ x ∈ s.tables_being_processed := by
  simp only [start_sharing_work] at h
  rcases fold_sswi_share_mem h with h | h
  · rcases fold_sswi_share_mem h with h | h
    · exact Or.inl h
    · exact Or.inr (Or.inl h)
  · rw [fold_sswi_tables_being_processed] at h
    exact Or.inr (Or.inr h)

theorem ssw_notify_in {id : Nat} {s : SyncQueue}
    (h : id ∈ s.tables_to_process ∨ id ∈ s.tables_being_processed) :
    ((start_sharing_work s).jobs id).notify_when_work_could_be_shared = true := by
  simp only [start_sharing_work]
  rcases h with h | h
  · exact fold_sswi_notify_mono _ (fold_sswi_notify_in _ h)
  · refine fold_sswi_notify_in _ ?_
    rw [fold_sswi_tables_being_processed]
    exact h

theorem ssw_share_in {id : Nat} {s : SyncQueue}
    (h : id ∈ s.tables_to_process ∨ id ∈ s.tables_being_processed)
    (hw : (s.jobs id).ranges_to_check ≠ []) :
    id ∈ (start_sharing_work s).tables_with_work_to_share := by
  simp only [start_sharing_work]
  rcases h with h | h
  · exact fold_sswi_share_mono _ (fold_sswi_share_in h hw)
  · refine fold_sswi_share_in ?_ ?_
    · rw [fold_sswi_tables_being_processed]
      exact h
    · rw [fold_sswi_ranges]
      exact hw

theorem ssw_sharing_work (s : SyncQueue) :
    (start_sharing_work s).sharing_work = true := by
  simp only [start_sharing_work]
  have hstep : ∀ (L : List Nat) (t : SyncQueue),
      (L.foldl start_sharing_work_in t).sharing_work = t.sharing_work := by
    intro L
    induction L with
    | nil => intro t; rfl
    | cons a L ih =>
      intro t
      rw [List.foldl_cons, ih]
      simp only [start_sharing_work_in, setJob]
      split <;> rfl
  rw [hstep, hstep]

theorem scan_shareable_eq_dropWhile (s : SyncQueue) (l : List Nat) :
    scan_shareable s l =
      ((l.dropWhile fun id => !(s.jobs id).have_work_to_share).head?,
        l.dropWhile fun id => !(s.jobs id).have_work_to_share) := by
  induction l with
  | nil => rfl
  | cons a l ih =>
    by_cases h : (s.jobs a).have_work_to_share = true
    · simp [scan_shareable, List.dropWhile_cons, h]
    · simp only [Bool.not_eq_true] at h
      simp [scan_shareable, List.dropWhile_cons, h, ih]

theorem scan_shareable_mem {x : Nat} {s : SyncQueue} {l : List Nat}
    (h : x ∈ (scan_shareable s l).2) : x ∈ l := by
  induction l with
  | nil => simp [scan_shareable] at h
  | cons a l ih =>
    simp only [scan_shareable] at h
    split at h
    · exact h
    · exact List.mem_cons_of_mem a (ih h)

theorem bws_tables_to_process (s : SyncQueue) :
    (borrow_work_step s).2.tables_to_process = s.tables_to_process := by
  simp only [borrow_work_step]
  split
  · rfl
  · split <;> rfl

theorem bws_tables_being_processed (s : SyncQueue) :
    (borrow_work_step s).2.tables_being_processed = s.tables_being_processed := by
  simp only [borrow_work_step]
  split
  · rfl
  · split <;> rfl

theorem bws_enqueued (s : SyncQueue) :
    (borrow_work_step s).2.enqueued = s.enqueued := by
  simp only [borrow_work_step]
  split
  · rfl
  · split <;> rfl

theorem bws_completed (s : SyncQueue) :
    (borrow_work_step s).2.completed = s.completed := by
  simp only [borrow_work_step]
  split
  · rfl
  · split <;> rfl

theorem bws_next_id (s : SyncQueue) :
    (borrow_work_step s).2.next_id = s.next_id := by
  simp only [borrow_work_step]
  split
  · rfl
  · split <;> rfl

theorem bws_share_mem {x : Nat} {s : SyncQueue}
    (h : x ∈ (borrow_work_step s).2.tables_with_work_to_share) :
    x ∈ s.tables_with_work_to_share := by
  simp only [borrow_work_step] at h
  split at h
  · exact h
  · rename_i hscan
    split at h <;> rename_i heq
    all_goals
      simp only at h
      refine scan_shareable_mem (s := s) (l := s.tables_with_work_to_share) ?_
      rw [heq]
      exact h

/-- Dispatcher states reachable by sequences of the atomic operations of
`sync_queue.h`.  `claim` is one `find_table_job` call (including the
sharing-mode entry it may perform and the first iteration of
`borrow_work`); `borrowRetry` is a further iteration of `borrow_work`'s
loop after a wakeup; `offer` carries the caller contract the spec states
(it is invoked for a job the calling worker is driving, hence a claimed
job); `mutate` is out-of-band mutation of one job object under its own
lock by its owning worker or a borrower (which never touches the
dispatcher's collections). -/
inductive Reachable : SyncQueue → Prop where
  | init (workers : Nat) : Reachable (SyncQueue.make workers)
  | enqueue {s : SyncQueue} (tables : List Table) :
      Reachable s → Reachable (enqueue_tables_to_process s tables)
  | claim {s : SyncQueue} :
      Reachable s → Reachable (find_table_job s).2
  | borrowRetry {s : SyncQueue} :
      Reachable s → Reachable (borrow_work_step s).2
  | complete {s : SyncQueue} (id : Nat) :
      Reachable s → Reachable (completed_table s id)
  | offer {s : SyncQueue} (id : Nat) :
      Reachable s → id ∈ s.tables_being_processed →
      Reachable (SyncQueue.have_work_to_share s id)
  | abort {s : SyncQueue} :
      Reachable s → Reachable (SyncQueue.abort s).2
  | mutate {s : SyncQueue} (id : Nat) (f : TableJob → TableJob) :
      Reachable s → Reachable (setJob s id (f (s.jobs id)))

/-- Inductive invariant of reachable dispatcher states: the shareable set
is contained in the claimed set; pending and claimed are disjoint; the
pending FIFO has no duplicates; pending and claimed jobs were enqueued;
an enqueued job not yet completed is pending or claimed; and every
tracked id is below the allocator. -/
structure Inv (s : SyncQueue) : Prop where
  share_sub : ∀ id ∈ s.tables_with_work_to_share, id ∈ s.tables_being_processed
  disj : ∀ id ∈ s.tables_to_process, id ∉ s.tables_being_processed
  pend_nodup : s.tables_to_process.Nodup
  pend_enq : ∀ id ∈ s.tables_to_process, id ∈ s.enqueued
  claim_enq : ∀ id ∈ s.tables_being_processed, id ∈ s.enqueued
  exact1 : ∀ id ∈ s.enqueued, id ∉ s.completed →
    id ∈ s.tables_to_process ∨ id ∈ s.tables_being_processed
  bound_pend : ∀ id ∈ s.tables_to_process, id < s.next_id
  bound_claim : ∀ id ∈ s.tables_being_processed, id < s.next_id
  bound_enq : ∀ id ∈ s.enqueued, id < s.next_id

theorem inv_init (workers : Nat) : Inv (SyncQueue.make workers) := by
  constructor <;> simp [SyncQueue.make]

theorem inv_enqueue_one {s : SyncQueue} (h : Inv s) (t : Table) : Inv (enqueue_one s t) := by
  constructor
  all_goals simp only [enqueue_one]
  · exact h.share_sub
  · intro id hid
    rcases List.mem_append.1 hid with hid | hid
    · exact h.disj id hid
    · simp only [List.mem_singleton] at hid
      subst hid
      intro hc
      exact absurd (h.bound_claim _ hc) (lt_irrefl _)
  · rw [List.nodup_append]
    refine ⟨h.pend_nodup, List.nodup_singleton _, ?_⟩
    intro a ha hb
    simp only [List.mem_singleton] at hb
    subst hb
    exact absurd (h.bound_pend _ ha) (lt_irrefl _)
  · intro id hid
    rcases List.mem_append.1 hid with hid | hid
    · exact List.mem_append_left _ (h.pend_enq id hid)
    · exact List.mem_append_right _ hid
  · intro id hid
    exact List.mem_append_left _ (h.claim_enq id hid)
  · intro id hid hnc
    rcases List.mem_append.1 hid with hid | hid
    · rcases h.exact1 id hid hnc with hp | hc
      · exact Or.inl (List.mem_append_left _ hp)
      · exact Or.inr hc
    · exact Or.inl (List.mem_append_right _ hid)
  · intro id hid
    rcases List.mem_append.1 hid with hid | hid
    · exact Nat.lt_succ_of_lt (h.bound_pend id hid)
    · simp only [List.mem_singleton] at hid
      subst hid
      exact Nat.lt_succ_self _
  · intro id hid
    exact Nat.lt_succ_of_lt (h.bound_claim id hid)
  · intro id hid
    rcases List.mem_append.1 hid with hid | hid
    · exact Nat.lt_succ_of_lt (h.bound_enq id hid)
    · simp only [List.mem_singleton] at hid
      subst hid
      exact Nat.lt_succ_self _

theorem inv_enqueue {s : SyncQueue} (h : Inv s) (tables : List Table) :
    Inv (enqueue_tables_to_process s tables) := by
  induction tables generalizing s with
  | nil => exact h
  | cons t ts ih => exact ih (inv_enqueue_one h t)

theorem inv_setJob {s : SyncQueue} (h : Inv s) (id : Nat) (j : TableJob) :
    Inv (setJob s id j) :=
  { share_sub := h.share_sub
    disj := h.disj
    pend_nodup := h.pend_nodup
    pend_enq := h.pend_enq
    claim_enq := h.claim_enq
    exact1 := h.exact1
    bound_pend := h.bound_pend
    bound_claim := h.bound_claim
    bound_enq := h.bound_enq }

theorem inv_abort {s : SyncQueue} (h : Inv s) : Inv (SyncQueue.abort s).2 :=
  { share_sub := h.share_sub
    disj := h.disj
    pend_nodup := h.pend_nodup
    pend_enq := h.pend_enq
    claim_enq := h.claim_enq
    exact1 := h.exact1
    bound_pend := h.bound_pend
    bound_claim := h.bound_claim
    bound_enq := h.bound_enq }

theorem inv_offer {s : SyncQueue} (h : Inv s) (id : Nat)
    (hid : id ∈ s.tables_being_processed) : Inv (s.have_work_to_share id) := by
  refine { h with share_sub := ?_ }
  intro x hx
  rcases mem_of_mem_setInsert hx with hx | hx
  · exact hx ▸ hid
  · exact h.share_sub x hx

theorem inv_complete {s : SyncQueue} (h : Inv s) (id : Nat) :
    Inv (completed_table s id) := by
  constructor
  · intro x hx
    rcases mem_setErase.1 hx with ⟨hx, hne⟩
    exact mem_setErase.2 ⟨h.share_sub x hx, hne⟩
  · intro x hx hc
    exact h.disj x hx (mem_setErase.1 hc).1
  · exact h.pend_nodup
  · exact h.pend_enq
  · intro x hx
    exact h.claim_enq x (mem_setErase.1 hx).1
  · intro x hx hnc
    simp only [completed_table, List.mem_cons, not_or] at hnc
    rcases h.exact1 x hx hnc.2 with hp | hc
    · exact Or.inl hp
    · exact Or.inr (mem_setErase.2 ⟨hc, hnc.1⟩)
  · exact h.bound_pend
  · intro x hx
    exact h.bound_claim x (mem_setErase.1 hx).1
  · exact h.bound_enq

theorem inv_ssw {s : SyncQueue} (h : Inv s) (hp : s.tables_to_process = []) :
    Inv (start_sharing_work s) := by
  constructor
  · intro x hx
    rw [ssw_tables_being_processed]
    rcases ssw_share_mem hx with hx | hx | hx
    · exact h.share_sub x hx
    · rw [hp] at hx
      cases hx
    · exact hx
  · rw [ssw_tables_to_process, ssw_tables_being_processed]
    exact h.disj
  · rw [ssw_tables_to_process]
    exact h.pend_nodup
  · rw [ssw_tables_to_process, ssw_enqueued]
    exact h.pend_enq
  · rw [ssw_tables_being_processed, ssw_enqueued]
    exact h.claim_enq
  · rw [ssw_tables_to_process, ssw_tables_being_processed, ssw_enqueued, ssw_completed]
    exact h.exact1
  · rw [ssw_tables_to_process, ssw_next_id]
    exact h.bound_pend
  · rw [ssw_tables_being_processed, ssw_next_id]
    exact h.bound_claim
  · rw [ssw_enqueued, ssw_next_id]
    exact h.bound_enq

theorem inv_bws {s : SyncQueue} (h : Inv s) : Inv (borrow_work_step s).2 := by
  constructor
  · intro x hx
    rw [bws_tables_being_processed]
    exact h.share_sub x (bws_share_mem hx)
  · rw [bws_tables_to_process, bws_tables_being_processed]
    exact h.disj
  · rw [bws_tables_to_process]
    exact h.pend_nodup
  · rw [bws_tables_to_process, bws_enqueued]
    exact h.pend_enq
  · rw [bws_tables_being_processed, bws_enqueued]
    exact h.claim_enq
  · rw [bws_tables_to_process, bws_tables_being_processed, bws_enqueued, bws_completed]
    exact h.exact1
  · rw [bws_tables_to_process, bws_next_id]
    exact h.bound_pend
  · rw [bws_tables_being_processed, bws_next_id]
    exact h.bound_claim
  · rw [bws_enqueued, bws_next_id]
    exact h.bound_enq

theorem inv_claim {s : SyncQueue} (h : Inv s) : Inv (find_table_job s).2 := by
  simp only [find_table_job]
  split
  · exact h
  · split
    · rename_i hp
      have h1 : Inv (if s.sharing_work then s else start_sharing_work s) := by
        split
        · exact h
        · exact inv_ssw h hp
      rcases hb : borrow_work_step (if s.sharing_work then s else start_sharing_work s) with ⟨r, s2⟩
      have h2 : Inv s2 := by
        have h3 := inv_bws h1
        rw [hb] at h3
        exact h3
      cases r <;> exact h2
    · rename_i id rest hp
      have hid_pend : id ∈ s.tables_to_process := by
        rw [hp]
        exact List.mem_cons_self id rest
      have hrest : ∀ x ∈ rest, x ∈ s.tables_to_process := by
        intro x hx
        rw [hp]
        exact List.mem_cons_of_mem id hx
      have hnodup : (id :: rest).Nodup := hp ▸ h.pend_nodup
      constructor
      · intro x hx
        exact mem_setInsert_of_mem id (h.share_sub x hx)
      · intro x hx hc
        rcases mem_of_mem_setInsert hc with hc | hc
        · subst hc
          exact (List.nodup_cons.1 hnodup).1 hx
        · exact h.disj x (hrest x hx) hc
      · exact (List.nodup_cons.1 hnodup).2
      · intro x hx
        exact h.pend_enq x (hrest x hx)
      · intro x hx
        rcases mem_of_mem_setInsert hx with hx | hx
        · subst hx
          exact h.pend_enq x hid_pend
        · exact h.claim_enq x hx
      · intro x hx hnc
        rcases h.exact1 x hx hnc with hx2 | hx2
        · rw [hp] at hx2
          rcases List.mem_cons.1 hx2 with hx2 | hx2
          · subst hx2
            exact Or.inr (mem_setInsert_self x _)
          · exact Or.inl hx2
        · exact Or.inr (mem_setInsert_of_mem id hx2)
      · intro x hx
        exact h.bound_pend x (hrest x hx)
      · intro x hx
        rcases mem_of_mem_setInsert hx with hx | hx
        · subst hx
          exact h.bound_pend x hid_pend
        · exact h.bound_claim x hx
      · exact h.bound_enq

/-- Every reachable dispatcher state satisfies the inductive invariant. -/
theorem reachable_inv {s : SyncQueue} (h : Reachable s) : Inv s := by
  induction h with
  | init workers => exact inv_init workers
  | enqueue tables _ ih => exact inv_enqueue ih tables
  | claim _ ih => exact inv_claim ih
  | borrowRetry _ ih => exact inv_bws ih
  | complete id _ ih => exact inv_complete ih id
  | offer id _ hid ih => exact inv_offer ih id hid
  | abort _ ih => exact inv_abort ih
  | mutate id f _ ih => exact inv_setJob ih id _

/-- Example table descriptor for concrete scenario states. -/
def tableA : Table :=
  { name := "t1", primary_key_columns := ["id"], key_space_subdividable := true }

/-- Second example table descriptor. -/
def tableB : Table :=
  { name := "t2", primary_key_columns := ["id"], key_space_subdividable := true }

/-- Example ready-to-check range. -/
def rangeA : KeyRangeToCheck :=
  { key_range := ([], [10]), estimated_rows_in_range := 10, rows_to_hash := 5, priority := 3 }

/-- Low-priority range for the ordering example. -/
def rangeLow : KeyRangeToCheck :=
  { key_range := ([], [4]), estimated_rows_in_range := 4, rows_to_hash := 4, priority := 2 }

/-- High-priority range for the ordering example. -/
def rangeHigh : KeyRangeToCheck :=
  { key_range := ([4], [9]), estimated_rows_in_range := 5, rows_to_hash := 5, priority := 7 }

/-- Job holding both example ranges in its ready-to-check collection. -/
def jPrio : TableJob :=
  { TableJob.make tableA with ranges_to_check := [rangeLow, rangeHigh] }

/-- Fresh dispatcher for a run with two workers, A and B. -/
def sInit : SyncQueue := SyncQueue.make 2

/-- One table enqueued (job id 0 pending). -/
def sEnqueued : SyncQueue := enqueue_tables_to_process sInit [tableA]

/-- Worker A has claimed job 0 (pending empty, job 0 claimed). -/
def sClaimed : SyncQueue := (find_table_job sEnqueued).2

/-- Worker A has produced a ready range on job 0 (under the job's own lock). -/
def sReady : SyncQueue := setJob sClaimed 0 (addRange rangeA (sClaimed.jobs 0))

/-- Worker A has offered job 0's ready work to the dispatcher. -/
def sOffered : SyncQueue := SyncQueue.have_work_to_share sReady 0

/-- Worker A has reported job 0 complete (from `sClaimed`). -/
def sCompleted : SyncQueue := completed_table sClaimed 0

/-- Worker B's claim call from `sClaimed`: pending is empty, so it enters
sharing mode and borrowing, finds nothing shareable, and reaches
`cond.wait` — scenario D's blocked worker B. -/
def sBlocked : SyncQueue := (find_table_job sClaimed).2

/-- `abort()` called while B is blocked (scenario D). -/
def sAbortedBlocked : SyncQueue := (SyncQueue.abort sBlocked).2

/-- Run aborted while the pending queue is non-empty. -/
def sAbortedPending : SyncQueue := (SyncQueue.abort sEnqueued).2

/-- Run aborted while a job is claimed. -/
def sAbortedClaimed : SyncQueue := (SyncQueue.abort sClaimed).2

/-- Two tables enqueued (jobs 0 and 1 pending). -/
def wEnqueued : SyncQueue := enqueue_tables_to_process sInit [tableA, tableB]

/-- Job 0 claimed. -/
def wClaimed1 : SyncQueue := (find_table_job wEnqueued).2

/-- Jobs 0 and 1 both claimed, pending empty. -/
def wClaimed2 : SyncQueue := (find_table_job wClaimed1).2

/-- Job 1 has a ready range; job 0 has none. -/
def wReady : SyncQueue := setJob wClaimed2 1 (addRange rangeA (wClaimed2.jobs 1))

/-- Job 0 offered (its ready work has since been drained: its
ready-to-check collection is empty). -/
def wOffered0 : SyncQueue := SyncQueue.have_work_to_share wReady 0

/-- Job 1 offered as well: the shareable set is now [0, 1], with job 0
empty and job 1 holding work. -/
def wOffered01 : SyncQueue := SyncQueue.have_work_to_share wOffered0 1

theorem reach_sEnqueued : Reachable sEnqueued :=
  Reachable.enqueue [tableA] (Reachable.init 2)

theorem reach_sClaimed : Reachable sClaimed :=
  Reachable.claim reach_sEnqueued

theorem reach_sReady : Reachable sReady :=
  Reachable.mutate 0 (addRange rangeA) reach_sClaimed

theorem reach_sOffered : Reachable sOffered :=
  Reachable.offer 0 reach_sReady (by decide)

theorem reach_sCompleted : Reachable sCompleted :=
  Reachable.complete 0 reach_sClaimed

theorem reach_wOffered01 : Reachable wOffered01 :=
  Reachable.offer 1
    (Reachable.offer 0
      (Reachable.mutate 1 (addRange rangeA)
        (Reachable.claim (Reachable.claim (Reachable.enqueue [tableA, tableB] (Reachable.init 2)))))
      (by decide))
    (by decide)

/-- C4: at every instant reachable by any sequence of enqueue, claim,
complete, offer, sharing-mode-entry and abort operations (sharing-mode
entry happens inside claim; offer carries the spec's caller contract
that the offered job is one the caller is driving, hence claimed), the
shareable set `tables_with_work_to_share` is a subset of the claimed set
`tables_being_processed`. -/
theorem shareable_subset_of_claimed (s : SyncQueue) (h : Reachable s) :
    ∀ id ∈ s.tables_with_work_to_share, id ∈ s.tables_being_processed :=
  (reachable_inv h).share_sub

/-- Witness for C4: in the concrete reachable state `sOffered` the
shareable set holds job 0, and job 0 is indeed claimed. -/
theorem shareable_subset_of_claimed_witness :
    0 ∈ sOffered.tables_being_processed :=
  shareable_subset_of_claimed sOffered reach_sOffered 0 (by decide)

/-- C3 counterexample: after enqueue, claim and complete — a sequence of
the operations the claim quantifies over — the enqueued job 0 is a
member of neither the pending queue nor the claimed set, refuting "a
member of exactly one of the pending queue and the claimed set" at every
instant. -/
theorem completed_job_in_neither_collection :
    Reachable sCompleted ∧ 0 ∈ sCompleted.enqueued ∧
      0 ∉ sCompleted.tables_to_process ∧ 0 ∉ sCompleted.tables_being_processed :=
  ⟨reach_sCompleted, by decide, by decide, by decide⟩

/-- C3 amended: at every reachable instant, every enqueued job that has
not yet been reported complete is a member of exactly one of the pending
queue and the claimed set (after its complete call it is in neither). -/
theorem enqueued_job_in_exactly_one_until_completed (s : SyncQueue) (h : Reachable s)
    (id : Nat) (henq : id ∈ s.enqueued) (hnc : id ∉ s.completed) :
    (id ∈ s.tables_to_process ∨ id ∈ s.tables_being_processed) ∧
      ¬(id ∈ s.tables_to_process ∧ id ∈ s.tables_being_processed) := by
  have hi := reachable_inv h
  refine ⟨hi.exact1 id henq hnc, ?_⟩
  rintro ⟨hp, hc⟩
  exact hi.disj id hp hc

/-- Witness for C3's amended claim at the concrete reachable state
`sClaimed` and the enqueued, uncompleted job 0. -/
theorem enqueued_job_in_exactly_one_witness :
    (0 ∈ sClaimed.tables_to_process ∨ 0 ∈ sClaimed.tables_being_processed) ∧
      ¬(0 ∈ sClaimed.tables_to_process ∧ 0 ∈ sClaimed.tables_being_processed) :=
  enqueued_job_in_exactly_one_until_completed sClaimed reach_sClaimed 0 (by decide) (by decide)

/-- C9: when the run has been aborted, `find_table_job` raises the
cancellation error at entry: its result is `cancelled`, never a table
job, whatever the pending queue holds. -/
theorem find_cancelled_of_aborted (s : SyncQueue) (h : s.aborted = true) :
    (find_table_job s).1 = FindResult.cancelled := by
  simp [find_table_job, h]

/-- Witness for C9: in the concrete aborted state whose pending queue is
non-empty, the claim call reports cancellation. -/
theorem find_cancelled_of_aborted_witness :
    sAbortedPending.tables_to_process = [0] ∧
      (find_table_job sAbortedPending).1 = FindResult.cancelled :=
  ⟨by decide, find_cancelled_of_aborted sAbortedPending (by decide)⟩

/-- C10: when `find_table_job` raises the cancellation error at entry,
the dispatcher state is returned unchanged — the aborted check precedes
every mutation of the pending queue, the claimed set, the shareable set
and the sharing-mode flag. -/
theorem find_cancelled_state_unchanged (s : SyncQueue) (h : s.aborted = true) :
    (find_table_job s).2 = s := by
  simp [find_table_job, h]

/-- Witness for C10 at a concrete aborted state with a claimed job. -/
theorem find_cancelled_state_unchanged_witness :
    (find_table_job sAbortedClaimed).2 = sAbortedClaimed :=
  find_cancelled_state_unchanged sAbortedClaimed (by decide)

/-- C1 (the code diverges from the claim): in scenario D, worker B's
claim call reaches `cond.wait` inside `borrow_work`; `abort()` then sets
the cancellation flag (and notifies), but the woken borrower's next loop
iteration — which re-checks only `finished()` and the shareable set,
never the `aborted` flag — reaches `cond.wait` again instead of raising
the Cancelled error: `borrow_work`'s loop body contains no aborted
check, so the blocked call does not return Cancelled. -/
theorem abort_does_not_release_blocked_borrower :
    (find_table_job sClaimed).1 = FindResult.blocked ∧
      sAbortedBlocked.aborted = true ∧
      finished sAbortedBlocked = false ∧
      (borrow_work_step sAbortedBlocked).1 = BorrowResult.blocked := by
  refine ⟨by decide, by decide, by decide, by decide⟩

/-- C2 counterexample: in the concrete reachable state `wOffered01` the
shareable set is [0, 1], job 0 has no ready work and job 1 has some; the
scan erases the drained candidate 0, returns candidate 1 — and candidate
1, though visited and returned, is still a member of the shareable set
after the pass, refuting "every visited candidate is removed from the
shareable set regardless of whether it still has work — including the
candidate that is returned". -/
theorem returned_candidate_stays_in_shareable_set :
    Reachable wOffered01 ∧
      wOffered01.tables_with_work_to_share = [0, 1] ∧
      (borrow_work_step wOffered01).1 = BorrowResult.tableJob 1 ∧
      (borrow_work_step wOffered01).2.tables_with_work_to_share = [1] := by
  exact ⟨reach_wOffered01, by decide, by decide, by decide⟩

/-- C2 amended: in each pass of the borrowing scan, exactly the visited
candidates found without work — the maximal prefix of the shareable set
whose re-check under the job's own lock finds the ready-to-check
collection empty — are removed; the job returned is the first visited
candidate still holding work, and it remains in the shareable set, as do
all unvisited candidates; if no candidate holds work, every candidate
was visited and removed and the pass blocks. -/
theorem borrow_scan_removes_only_drained_prefix (s : SyncQueue) (hf : finished s = false) :
    (borrow_work_step s).2.tables_with_work_to_share =
        (s.tables_with_work_to_share.dropWhile fun id => !(s.jobs id).have_work_to_share) ∧
      (borrow_work_step s).1 =
        (match (s.tables_with_work_to_share.dropWhile fun id => !(s.jobs id).have_work_to_share).head? with
          | some id => BorrowResult.tableJob id
          | none => BorrowResult.blocked) ∧
      (∀ id, (borrow_work_step s).1 = BorrowResult.tableJob id →
        id ∈ (borrow_work_step s).2.tables_with_work_to_share) := by
  have hfneg : ¬ finished s = true := by simp [hf]
  simp only [borrow_work_step, if_neg hfneg, scan_shareable_eq_dropWhile]
  rcases hh : (s.tables_with_work_to_share.dropWhile fun id => !(s.jobs id).have_work_to_share).head?
    with _ | id
  · refine ⟨rfl, rfl, ?_⟩
    intro id2 hid2
    cases hid2
  · refine ⟨rfl, rfl, ?_⟩
    intro id2 hid2
    cases hid2
    exact List.mem_of_mem_head? (Option.mem_def.2 hh)

/-- Witness for C2's amended claim at the concrete state `wOffered01`. -/
theorem borrow_scan_removes_only_drained_prefix_witness :
    (borrow_work_step wOffered01).2.tables_with_work_to_share =
        (wOffered01.tables_with_work_to_share.dropWhile fun id => !(wOffered01.jobs id).have_work_to_share) ∧
      (borrow_work_step wOffered01).1 =
        (match (wOffered01.tables_with_work_to_share.dropWhile fun id => !(wOffered01.jobs id).have_work_to_share).head? with
          | some id => BorrowResult.tableJob id
          | none => BorrowResult.blocked) ∧
      (∀ id, (borrow_work_step wOffered01).1 = BorrowResult.tableJob id →
        id ∈ (borrow_work_step wOffered01).2.tables_with_work_to_share) :=
  borrow_scan_removes_only_drained_prefix wOffered01 (by decide)

/-- C5: `start_sharing_work` marks every job in the pending queue and
every claimed job to publish future ready work, and every such job whose
ready-to-check collection is non-empty at that instant is a member of
the shareable set immediately afterwards — no offer call is needed — and
the sharing-mode flag is set. -/
theorem start_sharing_marks_and_publishes (s : SyncQueue) (id : Nat)
    (h : id ∈ s.tables_to_process ∨ id ∈ s.tables_being_processed) :
    ((start_sharing_work s).jobs id).notify_when_work_could_be_shared = true ∧
      ((s.jobs id).ranges_to_check ≠ [] → id ∈ (start_sharing_work s).tables_with_work_to_share) ∧
      (start_sharing_work s).sharing_work = true :=
  ⟨ssw_notify_in h, fun hw => ssw_share_in h hw, ssw_sharing_work s⟩

/-- Witness for C5 at the concrete state `sReady`, whose claimed job 0
already holds a ready range when sharing mode is entered. -/
theorem start_sharing_marks_and_publishes_witness :
    ((start_sharing_work sReady).jobs 0).notify_when_work_could_be_shared = true ∧
      ((sReady.jobs 0).ranges_to_check ≠ [] → 0 ∈ (start_sharing_work sReady).tables_with_work_to_share) ∧
      (start_sharing_work sReady).sharing_work = true :=
  start_sharing_marks_and_publishes sReady 0 (Or.inr (by decide))

theorem ranges_to_check_top_isSome (a : KeyRangeToCheck) (l : List KeyRangeToCheck) :
    (ranges_to_check_top (a :: l)).isSome = true := by
  simp only [ranges_to_check_top]
  rcases h : ranges_to_check_top l with _ | m
  · rfl
  · show (if lower_priority a m = true then some m else some a).isSome = true
    split <;> rfl

theorem ranges_to_check_top_is_max (l : List KeyRangeToCheck) (r m : KeyRangeToCheck)
    (hm : ranges_to_check_top l = some m) (hr : r ∈ l) : r.priority ≤ m.priority := by
  induction l generalizing m with
  | nil => cases hr
  | cons a l ih =>
    simp only [ranges_to_check_top] at hm
    rcases h2 : ranges_to_check_top l with _ | m2
    · simp only [h2] at hm
      have ha : a = m := Option.some.inj hm
      rcases List.mem_cons.1 hr with hr | hr
      · rw [hr, ← ha]
      · cases l with
        | nil => cases hr
        | cons b l2 =>
          have hs := ranges_to_check_top_isSome b l2
          rw [h2] at hs
          cases hs
    · simp only [h2] at hm
      by_cases hlt : lower_priority a m2 = true
      · rw [if_pos hlt] at hm
        have hm2 : m2 = m := Option.some.inj hm
        have halt : a.priority < m2.priority := by
          simpa [lower_priority] using hlt
        rcases List.mem_cons.1 hr with hr | hr
        · rw [hr, ← hm2]
          exact le_of_lt halt
        · exact hm2 ▸ ih m2 h2 hr
      · rw [if_neg hlt] at hm
        have ha : a = m := Option.some.inj hm
        have hge : m2.priority ≤ a.priority := by
          simp only [lower_priority, decide_eq_true_eq, not_lt] at hlt
          exact hlt
        rcases List.mem_cons.1 hr with hr | hr
        · rw [hr, ← ha]
        · exact ha ▸ le_trans (ih m2 h2 hr) hge

/-- C6: for every table job, the range its priority queue yields first
(`top()` of `ranges_to_check`, ordered by `lower_priority`) has a
priority greater than or equal to that of every range simultaneously
present in the collection. -/
theorem ranges_top_has_max_priority (j : TableJob) (r m : KeyRangeToCheck)
    (hm : ranges_to_check_top j.ranges_to_check = some m) (hr : r ∈ j.ranges_to_check) :
    r.priority ≤ m.priority :=
  ranges_to_check_top_is_max j.ranges_to_check r m hm hr

/-- Witness for C6: in the job holding the two example ranges, the one
dispatched first is the high-priority one. -/
theorem ranges_top_has_max_priority_witness :
    rangeLow.priority ≤ rangeHigh.priority :=
  ranges_top_has_max_priority jPrio rangeLow rangeHigh (by decide) (by decide)

theorem enqueue_cons (s : SyncQueue) (t : Table) (ts : List Table) :
    enqueue_tables_to_process s (t :: ts) = enqueue_tables_to_process (enqueue_one s t) ts := rfl

theorem enqueue_jobs_lt (ts : List Table) : ∀ (s : SyncQueue) (m : Nat), m < s.next_id →
    (enqueue_tables_to_process s ts).jobs m = s.jobs m := by
  induction ts with
  | nil =>
    intro s m _
    rfl
  | cons t ts ih =>
    intro s m hm
    rw [enqueue_cons, ih _ m (Nat.lt_succ_of_lt hm)]
    show (if m = s.next_id then TableJob.make t else s.jobs m) = s.jobs m
    rw [if_neg (Nat.ne_of_lt hm)]

theorem enqueue_pending (ts : List Table) : ∀ (s : SyncQueue),
    (enqueue_tables_to_process s ts).tables_to_process =
      s.tables_to_process ++ (List.range ts.length).map (fun k => s.next_id + k) := by
  induction ts with
  | nil =>
    intro s
    simp [enqueue_tables_to_process]
  | cons t ts ih =>
    intro s
    rw [enqueue_cons, ih]
    show (s.tables_to_process ++ [s.next_id]) ++
        (List.range ts.length).map (fun k => (s.next_id + 1) + k) = _
    rw [List.append_assoc]
    congr 1
    rw [List.length_cons, List.range_succ_eq_map, List.map_cons, List.map_map]
    rw [Nat.add_zero, List.singleton_append]
    congr 1
    apply List.map_congr_left
    intro a _
    show s.next_id + 1 + a = s.next_id + (a + 1)
    omega

theorem enqueue_jobs_new (ts : List Table) : ∀ (s : SyncQueue) (k : Nat) (hk : k < ts.length),
    (enqueue_tables_to_process s ts).jobs (s.next_id + k) = TableJob.make (ts.get ⟨k, hk⟩) := by
  induction ts with
  | nil =>
    intro s k hk
    exact absurd hk (by simp)
  | cons t ts ih =>
    intro s k hk
    rw [enqueue_cons]
    cases k with
    | zero =>
      rw [Nat.add_zero,
        enqueue_jobs_lt ts (enqueue_one s t) s.next_id (Nat.lt_succ_self _)]
      show (if s.next_id = s.next_id then TableJob.make t else s.jobs s.next_id) = _
      rw [if_pos rfl]
      rfl
    | succ j =>
      have hj : j < ts.length := Nat.lt_of_succ_lt_succ hk
      have harith : s.next_id + (j + 1) = (enqueue_one s t).next_id + j := by
        show s.next_id + (j + 1) = (s.next_id + 1) + j
        omega
      rw [harith, ih _ j hj]
      rfl

theorem find_pops_front (s : SyncQueue) (id : Nat) (rest : List Nat)
    (ha : s.aborted = false) (hp : s.tables_to_process = id :: rest) :
    find_table_job s = (FindResult.tableJob id,
      { s with
        tables_to_process := rest
        tables_being_processed := setInsert id s.tables_being_processed }) := by
  simp [find_table_job, ha, hp]

/-- C7: `enqueue_tables_to_process` appends one fresh `TableJob` per
table descriptor, in input order, to the back of the pending queue (the
fresh ids continue the allocation sequence, and the job at each fresh id
is the `TableJob` constructor applied to the corresponding descriptor);
and every `find_table_job` call made while the run is not aborted and
the pending queue is non-empty pops the front job, inserts it into the
claimed set, and returns it. -/
theorem enqueue_appends_and_claim_pops (s : SyncQueue) (ts : List Table) :
    ((enqueue_tables_to_process s ts).tables_to_process =
        s.tables_to_process ++ (List.range ts.length).map (fun k => s.next_id + k)) ∧
      (∀ k (hk : k < ts.length),
        (enqueue_tables_to_process s ts).jobs (s.next_id + k) = TableJob.make (ts.get ⟨k, hk⟩)) ∧
      (∀ id rest, s.aborted = false → s.tables_to_process = id :: rest →
        find_table_job s = (FindResult.tableJob id,
          { s with
            tables_to_process := rest
            tables_being_processed := setInsert id s.tables_being_processed })) :=
  ⟨enqueue_pending ts s, fun k hk => enqueue_jobs_new ts s k hk,
    fun id rest ha hp => find_pops_front s id rest ha hp⟩

/-- Witness for C7: enqueueing the two example tables into the fresh
dispatcher appends pending ids [0, 1] in input order, and the next claim
call pops job 0 into the claimed set. -/
theorem enqueue_appends_and_claim_pops_witness :
    ((enqueue_tables_to_process sInit [tableA, tableB]).tables_to_process =
        sInit.tables_to_process ++ (List.range 2).map (fun k => sInit.next_id + k)) ∧
      find_table_job wEnqueued = (FindResult.tableJob 0,
        { wEnqueued with
          tables_to_process := [1]
          tables_being_processed := setInsert 0 wEnqueued.tables_being_processed }) :=
  ⟨(enqueue_appends_and_claim_pops sInit [tableA, tableB]).1,
    (enqueue_appends_and_claim_pops wEnqueued []).2.2 0 [1] (by decide) (by decide)⟩

/-- C8: one pass of `borrow_work`'s loop returns the "no more work"
result (`nullptr`) exactly when the pending queue and the claimed set
are both empty — the `finished()` condition — and never while either is
non-empty. -/
theorem borrow_noWork_iff_finished (s : SyncQueue) :
    (borrow_work_step s).1 = BorrowResult.noWork ↔
      (s.tables_to_process = [] ∧ s.tables_being_processed = []) := by
  constructor
  · intro h
    by_cases hf : finished s = true
    · simpa [finished, List.isEmpty_iff] using hf
    · exfalso
      simp only [borrow_work_step, if_neg hf] at h
      rcases h2 : scan_shareable s s.tables_with_work_to_share with ⟨fst, snd⟩
      rw [h2] at h
      cases fst <;> simp at h
  · rintro ⟨h1, h2⟩
    have hf : finished s = true := by simp [finished, h1, h2]
    simp [borrow_work_step, hf]

end KitchenSync
